import Mathlib

/-!
Verification of the SmallBets.live betting coordinator against its
natural-language specification.

The repository snapshot contains the React/TypeScript frontend (components,
hooks, API client, types) together with the product documents and test
contracts; the FastAPI backend (directory backend/, with game_logic,
bet_service and transcript_parser) is not part of the snapshot.  Definitions
below therefore come from two places:

* frontend code is embedded directly from the TypeScript sources
  (types, api client request bodies, useSession, BetCreationForm,
  BetListPanel, RoomPage);
* the settlement engine (scoring core, bet state machine, wager admission,
  settlement orchestrator, transcript classifier) is modelled from the
  specification, since only its callers, declarations and test contracts
  are in the snapshot.  Each such definition carries a doc comment starting
  with "Modelled from the spec:".
-/

namespace SmallBets

/-- Bet status, from the frontend types file:
    the union of the literals pending, open, locked, resolved. -/
inductive BetStatus
  | Pending
  | Open
  | Locked
  | Resolved
deriving DecidableEq, Repr

/-- The frontend Bet record, embedded from the types file (which, per its
    own header comment, mirrors the backend Pydantic models).  Its fields
    are exactly betId, roomCode, question, options, status, openedAt,
    lockedAt, resolvedAt, winningOption, pointsValue; timestamps are left
    out of the embedding because no claim mentions them. -/
structure Bet where
  betId : String
  roomCode : String
  question : String
  options : List String
  status : BetStatus
  winningOption : Option String
  pointsValue : Int
deriving DecidableEq, Repr

/-- The field names of the frontend Bet interface, listed in source order
    from the types file. -/
def betInterfaceFields : List String :=
  ["betId", "roomCode", "question", "options", "status",
   "openedAt", "lockedAt", "resolvedAt", "winningOption", "pointsValue"]

/-- Session data stored by the useSession hook: userId and roomCode are
    required, hostId is optional (hostId?: string). -/
structure SessionData where
  userId : String
  roomCode : String
  hostId : Option String
deriving DecidableEq, Repr

/-- JavaScript optional chaining session?.hostId: undefined when the
    session is null, otherwise the (possibly missing) hostId field. -/
def sessionHostId : Option SessionData → Option String
  | none => none
  | some s => s.hostId

/-- JavaScript optional chaining session?.userId: undefined when the
    session is null, otherwise the userId field (always present). -/
def sessionUserId : Option SessionData → Option String
  | none => none
  | some s => some s.userId

/-- From useSession: const isHost = session?.hostId === session?.userId.
    JavaScript strict equality on two possibly-undefined strings is
    Boolean equality of the two Option values (undefined === undefined
    is true). -/
def isHost (session : Option SessionData) : Bool :=
  sessionHostId session == sessionUserId session

/-- Strip leading and trailing whitespace from a character list. -/
def trimChars (l : List Char) : List Char :=
  ((l.dropWhile Char.isWhitespace).reverse.dropWhile Char.isWhitespace).reverse

/-- JavaScript String.prototype.trim: the string without leading and
    trailing whitespace. -/
def jsTrim (s : String) : String := String.mk (trimChars s.data)

/-- From BetCreationForm validateForm: the options that count, namely
    the options whose trimmed text is non-empty. -/
def validOptions (options : List String) : List String :=
  options.filter (fun o => jsTrim o != "")

/-- From BetCreationForm validateForm, translated branch by branch:
    empty (all-whitespace) question, question longer than 200 characters,
    fewer than 2 non-empty options, an option longer than 100 characters,
    and the points range; returns the error message or null. -/
def validateForm (question : String) (options : List String)
    (pointsValue : Int) : Option String :=
  if jsTrim question = "" then some "Question is required"
  else if question.length > 200 then some "Question must be 200 characters or less"
  else if (validOptions options).length < 2 then some "At least 2 options are required"
  else if (validOptions options).any (fun o => decide (o.length > 100)) then
    some "Options must be 100 characters or less"
  else if pointsValue < 10 ∨ pointsValue > 1000 then
    some "Points must be between 10 and 1000"
  else none

/-- The payload handleSubmit sends to betApi.createBet. -/
structure CreateBetRequest where
  question : String
  options : List String
  pointsValue : Int
deriving DecidableEq, Repr

/-- From BetCreationForm handleSubmit: validateForm runs first and a
    non-null message aborts the submission before any request is made;
    otherwise the bet is created from the trimmed question and the
    trimmed non-empty options. -/
def submitBet (question : String) (options : List String)
    (pointsValue : Int) : Option CreateBetRequest :=
  match validateForm question options pointsValue with
  | some _ => none
  | none =>
      some { question := jsTrim question,
             options := (validOptions options).map jsTrim,
             pointsValue := pointsValue }

/-- Body of betApi.openBet: JSON.stringify of one field, bet_id. -/
def openBetBody (betId : String) : List (String × String) :=
  [("bet_id", betId)]

/-- Body of betApi.lockBet: JSON.stringify of one field, bet_id. -/
def lockBetBody (betId : String) : List (String × String) :=
  [("bet_id", betId)]

/-- Body of betApi.resolveBet: JSON.stringify of one field, winning_option. -/
def resolveBetBody (winningOpt : String) : List (String × String) :=
  [("winning_option", winningOpt)]

/-- From RoomPage: const openBets keeps the bets whose status is open;
    the room page renders one card per element of this list and shows its
    length in the Open Bets badge. -/
def openBets (bets : List Bet) : List Bet :=
  bets.filter (fun b => b.status == BetStatus.Open)

/-- From the e2e test contract (step 5, "Verify bets are already in open
    status (bets open immediately on creation)"): a bet enters the room
    with status open when it is created. -/
def createdBet (betId roomCode question : String) (options : List String)
    (pointsValue : Int) : Bet :=
  { betId := betId, roomCode := roomCode, question := question,
    options := options, status := BetStatus.Open, winningOption := none,
    pointsValue := pointsValue }

/-- From BetListPanel: canClose is true when the status is open. -/
def canClose (b : Bet) : Bool :=
  b.status == BetStatus.Open

/-- From BetListPanel: canResolve is true when the status is locked. -/
def canResolve (b : Bet) : Bool :=
  b.status == BetStatus.Locked

/-- A wager (UserBet): the participant, the selected option, and the
    pointsWon written at resolution (null until then). -/
structure Wager where
  userId : String
  selectedOption : String
  pointsWon : Option Nat
deriving DecidableEq, Repr

/-- Modelled from the spec: the scoring core settle function
    (backend game_logic calculate_scores / distribute_pot, not in the
    snapshot).  Partition wagers into winners and losers, pot is
    wagerCost times the number of wagers; a unanimous or empty winner
    set refunds every stake, otherwise each winner receives the floor
    share of the pot and each loser receives zero. -/
def settle (wagerCost : Nat) (wagers : List Wager) (winningOpt : String) :
    List (String × Nat) :=
  let winners := wagers.filter (fun w => w.selectedOption == winningOpt)
  let pot := wagerCost * wagers.length
  if winners.length = 0 ∨ winners.length = wagers.length then
    wagers.map (fun w => (w.userId, wagerCost))
  else
    let share := pot / winners.length
    wagers.map (fun w =>
      (w.userId, if w.selectedOption == winningOpt then share else 0))

/-- The reference settlement of claim C1, written pointwise from the
    claim text: with pot = wagerCost * count(wagers), a winner count of
    zero or of all wagers refunds wagerCost to every wager, otherwise a
    winner receives floor(pot / winnerCount) and a loser receives zero
    (the remainder of the floor division goes to no one). -/
def settleRef (wagerCost : Nat) (wagers : List Wager) (winningOpt : String) :
    List (String × Nat) :=
  wagers.map (fun w =>
    (w.userId,
      if wagers.countP (fun v => v.selectedOption == winningOpt) = 0 ∨
          wagers.countP (fun v => v.selectedOption == winningOpt) = wagers.length then
        wagerCost
      else if w.selectedOption == winningOpt then
        wagerCost * wagers.length /
          wagers.countP (fun v => v.selectedOption == winningOpt)
      else 0))

/-- Modelled from the spec: the bet document as the settlement engine
    sees it (status, options, wager cost, winning option, resolution
    timestamp and undo deadline). -/
structure EngineBet where
  options : List String
  status : BetStatus
  wagerCost : Nat
  winningOption : Option String
  resolvedAt : Option Nat
  canUndoUntil : Option Nat
deriving DecidableEq, Repr

/-- Modelled from the spec: the 10 second grace window set on resolve. -/
def gracePeriod : Nat := 10

/-- Errors surfaced by the engine operations, named as in the spec. -/
inductive ApiError
  | BetNotOpen
  | InvalidOption
  | DuplicateWager
  | InsufficientPoints
  | InvalidTransition (current requested : BetStatus)
  | AlreadyResolved
  | UndoWindowExpired
deriving DecidableEq, Repr

/-- Modelled from the spec: the legal transitions of the bet state
    machine are pending to open, open to locked, locked to resolved, and
    the undo transition resolved to locked. -/
def canTransition : BetStatus → BetStatus → Bool
  | BetStatus.Pending, BetStatus.Open => true
  | BetStatus.Open, BetStatus.Locked => true
  | BetStatus.Locked, BetStatus.Resolved => true
  | BetStatus.Resolved, BetStatus.Locked => true
  | _, _ => false

/-- Modelled from the spec: a transition request against the bet state
    machine.  An illegal pair is rejected with InvalidTransition naming
    the current and requested status; locked to resolved requires a
    winning option that is a member of the options list; the undo
    transition resolved to locked is permitted only while now is at most
    canUndoUntil and clears winningOption, resolvedAt and canUndoUntil. -/
def requestTransition (b : EngineBet) (target : BetStatus)
    (winner : Option String) (now : Nat) : Except ApiError EngineBet :=
  if canTransition b.status target then
    match target with
    | BetStatus.Pending => Except.error (ApiError.InvalidTransition b.status target)
    | BetStatus.Open => Except.ok { b with status := BetStatus.Open }
    | BetStatus.Locked =>
        if b.status = BetStatus.Resolved then
          match b.canUndoUntil with
          | some t =>
              if now ≤ t then
                Except.ok { b with
                            status := BetStatus.Locked,
                            winningOption := none, resolvedAt := none,
                            canUndoUntil := none }
              else Except.error ApiError.UndoWindowExpired
          | none => Except.error ApiError.UndoWindowExpired
        else Except.ok { b with status := BetStatus.Locked }
    | BetStatus.Resolved =>
        match winner with
        | some w =>
            if w ∈ b.options then
              Except.ok { b with
                          status := BetStatus.Resolved,
                          winningOption := some w, resolvedAt := some now,
                          canUndoUntil := some (now + gracePeriod) }
            else Except.error ApiError.InvalidOption
        | none => Except.error ApiError.InvalidOption
  else Except.error (ApiError.InvalidTransition b.status target)

/-- A freshly created bet: pending, no winning option. -/
def newEngineBet (options : List String) (wagerCost : Nat) : EngineBet :=
  { options := options, status := BetStatus.Pending, wagerCost := wagerCost,
    winningOption := none, resolvedAt := none, canUndoUntil := none }

/-- The winning-option invariant of the data model: winningOption is
    non-null exactly when the status is resolved, and is then a member
    of the options list. -/
def BetWf (b : EngineBet) : Prop :=
  (b.winningOption.isSome ↔ b.status = BetStatus.Resolved) ∧
  (∀ w, b.winningOption = some w → w ∈ b.options)

/-- Bets reachable from creation through successful transition requests. -/
inductive ReachableBet : EngineBet → Prop
  | init (options : List String) (wagerCost : Nat) :
      ReachableBet (newEngineBet options wagerCost)
  | step {b b' : EngineBet} {target : BetStatus} {winner : Option String}
      {now : Nat} : ReachableBet b →
      requestTransition b target winner now = Except.ok b' → ReachableBet b'

/-- Engine state for one bet: the bet, its wagers, and the point
    balances of the room participants. -/
structure EngineState where
  bet : EngineBet
  wagers : List Wager
  balances : List (String × Int)
deriving DecidableEq, Repr

/-- Points of one participant (0 when absent). -/
def getPoints (balances : List (String × Int)) (userId : String) : Int :=
  match balances.find? (fun p => p.1 == userId) with
  | some p => p.2
  | none => 0

/-- Whether the participant already has a wager on the bet. -/
def hasWager (wagers : List Wager) (userId : String) : Bool :=
  wagers.any (fun w => w.userId == userId)

/-- Debit an amount from one participant balance. -/
def debit (balances : List (String × Int)) (userId : String)
    (amount : Int) : List (String × Int) :=
  balances.map (fun p => if p.1 = userId then (p.1, p.2 - amount) else p)

/-- Delta owed to one participant in a settlement result (0 when absent). -/
def deltaFor (deltas : List (String × Nat)) (userId : String) : Nat :=
  match deltas.find? (fun d => d.1 == userId) with
  | some d => d.2
  | none => 0

/-- Credit every balance with its settlement delta. -/
def applyDeltas (balances : List (String × Int))
    (deltas : List (String × Nat)) : List (String × Int) :=
  balances.map (fun p => (p.1, p.2 + (deltaFor deltas p.1 : Int)))

/-- Subtract every settlement delta from its balance again. -/
def removeDeltas (balances : List (String × Int))
    (deltas : List (String × Nat)) : List (String × Int) :=
  balances.map (fun p => (p.1, p.2 - (deltaFor deltas p.1 : Int)))

/-- Modelled from the spec: wager admission control placeWager, with its
    four preconditions checked in order (bet open, option a member,
    no existing wager for the pair, points at least the wager cost),
    each with its own error; success debits the cost and appends the
    wager record in the same step. -/
def placeWager (s : EngineState) (userId : String)
    (selectedOption : String) : Except ApiError EngineState :=
  if s.bet.status ≠ BetStatus.Open then Except.error ApiError.BetNotOpen
  else if selectedOption ∉ s.bet.options then Except.error ApiError.InvalidOption
  else if hasWager s.wagers userId then Except.error ApiError.DuplicateWager
  else if getPoints s.balances userId < (s.bet.wagerCost : Int) then
    Except.error ApiError.InsufficientPoints
  else
    Except.ok { s with
      wagers := s.wagers ++ [⟨userId, selectedOption, none⟩],
      balances := debit s.balances userId (s.bet.wagerCost : Int) }

/-- Modelled from the spec: settlement orchestrator resolveBet.  A
    repeated call with the matching winning option on an already
    resolved bet is a no-op returning the current state; a different
    winning option is rejected with AlreadyResolved; otherwise the bet
    must be locked and the option a member, the scoring core computes
    the deltas, every balance is credited, pointsWon is written on
    every wager, and the bet moves to resolved with resolvedAt and
    canUndoUntil set. -/
def resolveBet (s : EngineState) (winningOpt : String) (now : Nat) :
    Except ApiError EngineState :=
  if s.bet.status = BetStatus.Resolved then
    if s.bet.winningOption = some winningOpt then Except.ok s
    else Except.error ApiError.AlreadyResolved
  else if s.bet.status ≠ BetStatus.Locked then
    Except.error (ApiError.InvalidTransition s.bet.status BetStatus.Resolved)
  else if winningOpt ∉ s.bet.options then Except.error ApiError.InvalidOption
  else
    let deltas := settle s.bet.wagerCost s.wagers winningOpt
    Except.ok
      { bet := { s.bet with
                 status := BetStatus.Resolved,
                 winningOption := some winningOpt, resolvedAt := some now,
                 canUndoUntil := some (now + gracePeriod) },
        wagers := s.wagers.map (fun w =>
          ⟨w.userId, w.selectedOption, some (deltaFor deltas w.userId)⟩),
        balances := applyDeltas s.balances deltas }

/-- Modelled from the spec: settlement orchestrator undoResolve,
    permitted only within the grace window; it recomputes the deltas of
    the stored winning option, reverses exactly those credits (the
    placement debits stay), clears winningOption, resolvedAt,
    canUndoUntil and pointsWon, and returns the bet to locked. -/
def undoResolve (s : EngineState) (now : Nat) : Except ApiError EngineState :=
  if s.bet.status ≠ BetStatus.Resolved then
    Except.error (ApiError.InvalidTransition s.bet.status BetStatus.Locked)
  else
    match s.bet.canUndoUntil, s.bet.winningOption with
    | some t, some w =>
        if now ≤ t then
          let deltas := settle s.bet.wagerCost s.wagers w
          Except.ok
            { bet := { s.bet with
                       status := BetStatus.Locked,
                       winningOption := none, resolvedAt := none,
                       canUndoUntil := none },
              wagers := s.wagers.map (fun wg =>
                ⟨wg.userId, wg.selectedOption, none⟩),
              balances := removeDeltas s.balances deltas }
        else Except.error ApiError.UndoWindowExpired
    | _, _ => Except.error ApiError.UndoWindowExpired

/-- A locked state carrying no leftover resolution data: this is the
    shape a bet has when it arrives at locked for the first time. -/
def CleanLocked (s : EngineState) : Prop :=
  s.bet.status = BetStatus.Locked ∧ s.bet.winningOption = none ∧
  s.bet.resolvedAt = none ∧ s.bet.canUndoUntil = none ∧
  ∀ w ∈ s.wagers, w.pointsWon = none

/-- At most one wager per participant on the bet. -/
def AtMostOneWager (wagers : List Wager) : Prop :=
  ∀ u : String, wagers.countP (fun w => w.userId == u) ≤ 1

/-- Action taken by the automation, as reported to the admin panel
    (the live feed displays action_taken as one of these values). -/
inductive AutoAction
  | open_bet
  | resolve_bet
  | ignored
deriving DecidableEq, Repr

/-- The decision summary of one classifier evaluation: action taken,
    confidence, extracted candidate (for resolve) and whether the entry
    was flagged for admin review instead of acted on. -/
structure Decision where
  action : AutoAction
  confidence : ℚ
  extracted : Option String
  flagged : Bool
deriving DecidableEq, Repr

/-- Characters of a string, lower-cased (case-insensitive matching). -/
def lowerChars (s : String) : List Char :=
  s.data.map Char.toLower

/-- Whether sub occurs as a contiguous run inside l. -/
def charsContain (sub : List Char) : List Char → Bool
  | [] => sub.isEmpty
  | c :: t => sub.isPrefixOf (c :: t) || charsContain sub t

/-- Case-insensitive substring containment. -/
def textContains (text pat : String) : Bool :=
  charsContain (lowerChars pat) (lowerChars text)

/-- Accumulator pass splitting a character list at spaces. -/
def tokensAux : List Char → List Char → List String
  | acc, [] => if acc.isEmpty then [] else [String.mk acc.reverse]
  | acc, c :: t =>
      if c = ' ' then
        if acc.isEmpty then tokensAux [] t
        else String.mk acc.reverse :: tokensAux [] t
      else tokensAux (c :: acc) t

/-- Whitespace-separated tokens of a string. -/
def tokensOf (s : String) : List String := tokensAux [] s.data

/-- Modelled from the spec: confidence that an option is named by the
    text; full containment scores 1, otherwise the token-overlap ratio
    of the option tokens found in the text. -/
def optionConfidence (text opt : String) : ℚ :=
  if textContains text opt then 1
  else
    let ot := tokensOf opt
    if ot.length = 0 then 0
    else ((ot.filter (fun t => textContains text t)).length : ℚ) / (ot.length : ℚ)

/-- Whether any configured pattern occurs in the text. -/
def patternHit (text : String) (patterns : List String) : Bool :=
  patterns.any (fun p => textContains text p)

/-- Every option of the bet with its confidence against the text. -/
def scoredOptions (text : String) (options : List String) :
    List (String × ℚ) :=
  options.map (fun o => (o, optionConfidence text o))

/-- The best confidence among the scored options (0 when none). -/
def bestConfidence (scored : List (String × ℚ)) : ℚ :=
  scored.foldr (fun p acc => max p.2 acc) 0

/-- Modelled from the spec: the resolve-action confidence threshold,
    default 0.85. -/
def resolveUpper : ℚ := 17 / 20

/-- Modelled from the spec: the lower ambiguity bound below which an
    entry is ignored outright. -/
def resolveLower : ℚ := 3 / 5

/-- Modelled from the spec: the open-action confidence threshold,
    default 0.80. -/
def openThreshold : ℚ := 4 / 5

/-- Modelled from the spec: resolve-trigger evaluation.  No pattern hit
    is the ignored outcome; a single option scoring above the upper
    threshold yields resolve_bet with that option extracted; otherwise
    a best confidence at or above the lower bound is flagged for admin
    review without acting, and anything below it is ignored. -/
def resolveEval (lower upper : ℚ) (text : String)
    (resolvePatterns options : List String) : Decision :=
  if patternHit text resolvePatterns then
    match (scoredOptions text options).filter (fun p => decide (upper < p.2)) with
    | [cand] => ⟨AutoAction.resolve_bet, cand.2, some cand.1, false⟩
    | _ =>
        if lower ≤ bestConfidence (scoredOptions text options) then
          ⟨AutoAction.ignored, bestConfidence (scoredOptions text options),
            none, true⟩
        else
          ⟨AutoAction.ignored, bestConfidence (scoredOptions text options),
            none, false⟩
  else ⟨AutoAction.ignored, 0, none, false⟩

/-- Modelled from the spec: open-trigger evaluation; a confidence above
    the open threshold with automation enabled opens the bet, anything
    else is logged as ignored. -/
def openEval (threshold : ℚ) (text : String) (openPatterns : List String)
    (automationEnabled : Bool) : Decision :=
  if automationEnabled &&
      decide (threshold < bestConfidence (scoredOptions text openPatterns)) then
    ⟨AutoAction.open_bet, bestConfidence (scoredOptions text openPatterns),
      none, false⟩
  else
    ⟨AutoAction.ignored, bestConfidence (scoredOptions text openPatterns),
      none, false⟩

/-- Modelled from the spec: one classifier evaluation of a transcript
    entry against the bet in scope.  A pending bet is scored against the
    open patterns, an open or locked bet against the resolve patterns,
    and a resolved bet is ignored.  The evaluation is a total function:
    ambiguity and non-matching input are outcomes, never errors. -/
def classify (lower upper openThr : ℚ) (text : String) (b : EngineBet)
    (openPatterns resolvePatterns : List String)
    (automationEnabled : Bool) : Decision :=
  match b.status with
  | BetStatus.Pending => openEval openThr text openPatterns automationEnabled
  | BetStatus.Open => resolveEval lower upper text resolvePatterns b.options
  | BetStatus.Locked => resolveEval lower upper text resolvePatterns b.options
  | BetStatus.Resolved => ⟨AutoAction.ignored, 0, none, false⟩

/-- Concrete locked bet used by the witness scenarios: options A, B, C,
    wager cost 100 (the concrete scenario of the spec). -/
def scenarioBet : EngineBet :=
  { options := ["A", "B", "C"], status := BetStatus.Locked, wagerCost := 100,
    winningOption := none, resolvedAt := none, canUndoUntil := none }

/-- Concrete engine state of the spec scenario: U1 and U2 picked A, U3
    picked B; every balance already carries the placement debit
    (1000 - 100 = 900). -/
def scenarioState : EngineState :=
  { bet := scenarioBet,
    wagers := [⟨"U1", "A", none⟩, ⟨"U2", "A", none⟩, ⟨"U3", "B", none⟩],
    balances := [("U1", 900), ("U2", 900), ("U3", 900)] }

/-- The state after resolving the scenario with winner A at time 0:
    pot 300, two winners, share 150 each, loser 0. -/
def scenarioResolved : EngineState :=
  { bet := { options := ["A", "B", "C"], status := BetStatus.Resolved,
             wagerCost := 100, winningOption := some "A",
             resolvedAt := some 0, canUndoUntil := some gracePeriod },
    wagers := [⟨"U1", "A", some 150⟩, ⟨"U2", "A", some 150⟩, ⟨"U3", "B", some 0⟩],
    balances := [("U1", 1050), ("U2", 1050), ("U3", 900)] }

/-- Concrete open-bet state used by the placeWager witness. -/
def placeState : EngineState :=
  { bet := { options := ["A", "B", "C"], status := BetStatus.Open,
             wagerCost := 100, winningOption := none, resolvedAt := none,
             canUndoUntil := none },
    wagers := [],
    balances := [("U1", 1000)] }

/-- The state after U1 places a wager on A in placeState. -/
def placedState : EngineState :=
  { bet := placeState.bet,
    wagers := [⟨"U1", "A", none⟩],
    balances := [("U1", 900)] }

/-- Concrete locked bet of the transcript scenario from the spec. -/
def barbieBet : EngineBet :=
  { options := ["Barbie", "Oppenheimer"], status := BetStatus.Locked,
    wagerCost := 100, winningOption := none, resolvedAt := none,
    canUndoUntil := none }

deriving instance DecidableEq for Except

end SmallBets

namespace SmallBets

/-! Theorems.  Each claim has exactly one theorem named after it; shared
    helper lemmas come first. -/

/-- C10: in useSession, isHost is computed as
    session?.hostId === session?.userId; at the failing input of a null
    session both sides are undefined, so the code yields true, while the
    unit test of the hook (should return false when session is null)
    and the claim require false.  This theorem evaluates the embedded
    code at that failing input. -/
theorem c10_isHost_null_is_true : isHost none = true := rfl

/-- C9 counterexample: the duplicate options list A, A passes
    validateForm and is submitted unchanged, so a created bet can carry
    non-distinct option strings, refuting the distinctness part of the
    claim at a concrete input. -/
theorem c9_counterexample :
    validateForm "Q" ["A", "A"] 100 = none ∧
    submitBet "Q" ["A", "A"] 100 =
      some { question := "Q", options := ["A", "A"], pointsValue := 100 } ∧
    ¬ List.Nodup ["A", "A"] := by
  refine ⟨by decide, by decide, by decide⟩

/-- C9 (amended): bet creation rejects malformed input synchronously
    before any request is made — a bet whose question trims to empty or
    with fewer than 2 non-empty options is never submitted — but the
    options of a created bet need not be distinct. -/
theorem c9_amended_validation (question : String) (options : List String)
    (pointsValue : Int) (req : CreateBetRequest)
    (h : submitBet question options pointsValue = some req) :
    jsTrim question ≠ "" ∧ 2 ≤ req.options.length := by
  unfold submitBet at h
  cases hv : validateForm question options pointsValue with
  | some m => rw [hv] at h; exact absurd h (by simp)
  | none =>
      rw [hv] at h
      simp only [Option.some.injEq] at h
      subst h
      unfold validateForm at hv
      split_ifs at hv with h1 h2 h3 h4 h5
      refine ⟨h1, ?_⟩
      simp only [List.length_map]
      omega

/-- Witness for the amended C9 theorem at a concrete well-formed form. -/
theorem c9_amended_validation_witness :
    jsTrim "Q" ≠ "" ∧
    2 ≤ (CreateBetRequest.mk "Q" ["A", "B"] 100).options.length :=
  c9_amended_validation "Q" ["A", "B"] 100
    (CreateBetRequest.mk "Q" ["A", "B"] 100) (by decide)

/-- C7 counterexample: the resolveBet transition request carries only
    the winning_option field — no observed version — and the Bet record
    of the types file (the mirror of the backend model) has no version
    field, refuting the claim at the concrete request for
    Option Alpha. -/
theorem c7_counterexample :
    (resolveBetBody "Option Alpha").map Prod.fst = ["winning_option"] ∧
    "version" ∉ (resolveBetBody "Option Alpha").map Prod.fst ∧
    "version" ∉ betInterfaceFields := by
  refine ⟨rfl, by decide, by decide⟩

/-- C7 (amended): bets carry no version counter and no transition
    request supplies one: openBet and lockBet send exactly the bet_id
    field, resolveBet sends exactly the winning_option field, and
    version is not among the Bet fields. -/
theorem c7_amended_no_version (betId winningOpt : String) :
    (openBetBody betId).map Prod.fst = ["bet_id"] ∧
    (lockBetBody betId).map Prod.fst = ["bet_id"] ∧
    (resolveBetBody winningOpt).map Prod.fst = ["winning_option"] ∧
    "version" ∉ betInterfaceFields :=
  ⟨rfl, rfl, rfl, by decide⟩

/-- C4 counterexample: two freshly created bets in the same room are
    both open at once (bets open immediately on creation per the e2e
    contract), and the room page lists both, so a room does not have at
    most one open bet. -/
theorem c4_counterexample :
    ¬ (openBets [createdBet "bet-1" "BLUE" "Q1" ["A", "B"] 100,
                 createdBet "bet-2" "BLUE" "Q2" ["C", "D"] 100]).length ≤ 1 := by
  decide

/-- C4 (amended): every created bet enters the room with status open and
    the room page renders all of them, so a room can hold any number of
    simultaneously open bets; no single-open-bet admission check exists
    in the snapshot. -/
theorem c4_amended_many_open (items : List (String × String)) (q : String)
    (opts : List String) (pv : Int) :
    openBets (items.map (fun p => createdBet p.1 p.2 q opts pv)) =
      items.map (fun p => createdBet p.1 p.2 q opts pv) := by
  induction items with
  | nil => rfl
  | cons hd tl ih =>
      simp only [List.map_cons, openBets, List.filter_cons] at ih ⊢
      simpa [createdBet] using ih

/-- The settled amounts of a refund sum to the whole pot. -/
theorem sum_map_const_cost (l : List Wager) (c : Nat) :
    ((l.map (fun w => (w.userId, c))).map Prod.snd).sum = c * l.length := by
  induction l with
  | nil => simp
  | cons hd tl ih =>
      simp only [List.map_cons, List.sum_cons, List.map_map,
        List.length_cons, Nat.mul_succ] at ih ⊢
      omega

/-- The settled amounts of a non-refund settlement sum to the share times
    the winner count. -/
theorem sum_map_share (l : List Wager) (p : Wager → Bool) (s : Nat) :
    ((l.map (fun w => (w.userId, if p w then s else 0))).map Prod.snd).sum =
      s * l.countP p := by
  induction l with
  | nil => simp
  | cons hd tl ih =>
      simp only [List.map_cons, List.sum_cons, List.map_map] at ih ⊢
      by_cases hp : p hd <;>
        simp only [hp, if_true, if_false, List.countP_cons, Nat.mul_add,
          Nat.mul_one, Nat.mul_zero, ih, Bool.false_eq_true] <;>
        omega

/-- C1: the settlement function settle equals the reference definition
    of the claim (refund of the wager cost to everyone when the winner
    count is zero or total, otherwise the floor share of the pot to each
    winner and zero to each loser), and the total it distributes never
    exceeds the pot, so the floor-division remainder goes to no one. -/
theorem c1_settle_matches_reference (wagerCost : Nat) (wagers : List Wager)
    (winningOpt : String) :
    settle wagerCost wagers winningOpt = settleRef wagerCost wagers winningOpt ∧
    ((settle wagerCost wagers winningOpt).map Prod.snd).sum ≤
      wagerCost * wagers.length := by
  have hc : (wagers.filter (fun w => w.selectedOption == winningOpt)).length =
      wagers.countP (fun w => w.selectedOption == winningOpt) :=
    (List.countP_eq_length_filter _ _).symm
  by_cases hcase : wagers.countP (fun w => w.selectedOption == winningOpt) = 0 ∨
      wagers.countP (fun w => w.selectedOption == winningOpt) = wagers.length
  · constructor
    · simp only [settle, settleRef, hc, if_pos hcase]
    · simp only [settle, hc, if_pos hcase, sum_map_const_cost]
      exact Nat.le_refl _
  · constructor
    · simp only [settle, settleRef, hc, if_neg hcase]
    · simp only [settle, hc, if_neg hcase, sum_map_share]
      exact Nat.div_mul_le_self _ _

/-- Transition requests that return a bet keep the winning-option
    invariant of the data model. -/
theorem requestTransition_wf {b b' : EngineBet} {target : BetStatus}
    {winner : Option String} {now : Nat} (hwf : BetWf b)
    (h : requestTransition b target winner now = Except.ok b') : BetWf b' := by
  obtain ⟨hw1, hw2⟩ := hwf
  cases hb : b.status <;> cases target <;>
    simp only [requestTransition, canTransition, hb, if_true, if_false,
      Bool.false_eq_true, reduceCtorEq] at h
  · -- pending to open
    cases h
    constructor
    · simpa [hb] using hw1
    · simpa using hw2
  · -- open to locked
    cases h
    constructor
    · simpa [hb] using hw1
    · simpa using hw2
  · -- locked to resolved
    cases winner with
    | none => simp at h
    | some w =>
        simp only at h
        split at h
        · cases h
          refine ⟨by simp, ?_⟩
          intro w' hw'
          simp only [Option.some.injEq] at hw'
          subst hw'
          assumption
        · simp at h
  · -- resolved to locked (undo)
    cases hcu : b.canUndoUntil with
    | none => rw [hcu] at h; simp at h
    | some t =>
        simp only [hcu] at h
        rcases le_or_lt now t with hn | hn
        · rw [if_pos hn] at h
          cases h
          exact ⟨by simp, by simp⟩
        · rw [if_neg (Nat.not_le.mpr hn)] at h
          simp at h

/-- C2: only the four transitions pending to open, open to locked,
    locked to resolved and resolved to locked can succeed; any other
    requested transition fails with InvalidTransition naming the current
    and requested status; and every reachable bet has winningOption
    non-null exactly when resolved, always a member of its options. -/
theorem c2_transition_legality :
    (∀ (b : EngineBet) (target : BetStatus) (winner : Option String)
        (now : Nat) (b' : EngineBet),
        requestTransition b target winner now = Except.ok b' →
        canTransition b.status target = true) ∧
    (∀ (b : EngineBet) (target : BetStatus) (winner : Option String)
        (now : Nat), canTransition b.status target = false →
        requestTransition b target winner now =
          Except.error (ApiError.InvalidTransition b.status target)) ∧
    (∀ s t : BetStatus, canTransition s t = true ↔
        ((s = BetStatus.Pending ∧ t = BetStatus.Open) ∨
         (s = BetStatus.Open ∧ t = BetStatus.Locked) ∨
         (s = BetStatus.Locked ∧ t = BetStatus.Resolved) ∨
         (s = BetStatus.Resolved ∧ t = BetStatus.Locked))) ∧
    (∀ b : EngineBet, ReachableBet b → BetWf b) := by
  refine ⟨?_, ?_, ?_, ?_⟩
  · intro b target winner now b' h
    cases hct : canTransition b.status target with
    | true => rfl
    | false =>
        simp only [requestTransition, hct] at h
        simp at h
  · intro b target winner now h
    simp [requestTransition, h]
  · intro s t
    cases s <;> cases t <;> simp [canTransition]
  · intro b hb
    induction hb with
    | init options wagerCost =>
        constructor
        · simp [newEngineBet]
        · intro w hw
          simp [newEngineBet] at hw
    | step hreach hstep ih => exact requestTransition_wf ih hstep

/-- Witness for C2 at a fresh pending bet: a pending-to-resolved request
    is rejected as InvalidTransition, and the fresh bet satisfies the
    winning-option invariant. -/
theorem c2_transition_legality_witness :
    requestTransition (newEngineBet ["A", "B"] 100) BetStatus.Resolved
        (some "A") 0 =
      Except.error (ApiError.InvalidTransition BetStatus.Pending
        BetStatus.Resolved) ∧
    BetWf (newEngineBet ["A", "B"] 100) :=
  ⟨c2_transition_legality.2.1 (newEngineBet ["A", "B"] 100)
      BetStatus.Resolved (some "A") 0 (by decide),
   c2_transition_legality.2.2.2 (newEngineBet ["A", "B"] 100)
      (ReachableBet.init ["A", "B"] 100)⟩

/-- Debiting keeps the key of each entry, so a lookup after the debit
    finds the same entry with the amount subtracted. -/
theorem find_debit (bal : List (String × Int)) (u : String) (a : Int) :
    (debit bal u a).find? (fun p => p.1 == u) =
      (bal.find? (fun p => p.1 == u)).map (fun p => (p.1, p.2 - a)) := by
  induction bal with
  | nil => rfl
  | cons hd tl ih =>
      by_cases hk : hd.1 = u
      · simp only [debit, List.map_cons, if_pos hk]
        rw [List.find?_cons_of_pos _ (by simp [hk]),
          List.find?_cons_of_pos _ (by simp [hk])]
        simp
      · simp only [debit, List.map_cons, if_neg hk]
        rw [List.find?_cons_of_neg _ (by simp [hk]),
          List.find?_cons_of_neg _ (by simp [hk])]
        exact ih

/-- C3: placeWager checks its preconditions in order, bet open first,
    then option membership, then no duplicate wager, then sufficient
    points, each with its own error; on success the debit and the wager
    record appear together in the returned state and the
    one-wager-per-participant invariant is preserved. -/
theorem c3_placeWager_admission (s : EngineState) (u opt : String) :
    (placeWager s u opt = Except.error ApiError.BetNotOpen ↔
      s.bet.status ≠ BetStatus.Open) ∧
    (placeWager s u opt = Except.error ApiError.InvalidOption ↔
      s.bet.status = BetStatus.Open ∧ opt ∉ s.bet.options) ∧
    (placeWager s u opt = Except.error ApiError.DuplicateWager ↔
      s.bet.status = BetStatus.Open ∧ opt ∈ s.bet.options ∧
        hasWager s.wagers u = true) ∧
    (placeWager s u opt = Except.error ApiError.InsufficientPoints ↔
      s.bet.status = BetStatus.Open ∧ opt ∈ s.bet.options ∧
        hasWager s.wagers u = false ∧
        getPoints s.balances u < (s.bet.wagerCost : Int)) ∧
    (∀ s' : EngineState, placeWager s u opt = Except.ok s' →
      s'.wagers = s.wagers ++ [⟨u, opt, none⟩] ∧
      s'.balances = debit s.balances u (s.bet.wagerCost : Int) ∧
      getPoints s'.balances u =
        getPoints s.balances u - (s.bet.wagerCost : Int) ∧
      (AtMostOneWager s.wagers → AtMostOneWager s'.wagers)) := by
  by_cases h1 : s.bet.status = BetStatus.Open
  · by_cases h2 : opt ∈ s.bet.options
    · by_cases h3 : hasWager s.wagers u
      · have hpw : placeWager s u opt = Except.error ApiError.DuplicateWager := by
          simp [placeWager, h1, h2, h3]
        refine ⟨?_, ?_, ?_, ?_, ?_⟩ <;> simp only [hpw] <;> simp [h1, h2, h3]
      · by_cases h4 : getPoints s.balances u < (s.bet.wagerCost : Int)
        · have hpw : placeWager s u opt =
              Except.error ApiError.InsufficientPoints := by
            simp [placeWager, h1, h2, h3, h4]
          refine ⟨?_, ?_, ?_, ?_, ?_⟩ <;> simp only [hpw] <;>
            simp [h1, h2, h3, h4, Bool.eq_false_iff]
        · have hpw : placeWager s u opt = Except.ok
              { s with
                wagers := s.wagers ++ [⟨u, opt, none⟩],
                balances := debit s.balances u (s.bet.wagerCost : Int) } := by
            simp [placeWager, h1, h2, h3, h4]
          refine ⟨?_, ?_, ?_, ?_, ?_⟩
          · simp only [hpw]; simp [h1]
          · simp only [hpw]; simp [h1, h2]
          · simp only [hpw]; simp [h1, h2, h3]
          · simp only [hpw]; simp [h1, h2, h3, h4]
          · intro s' hs'
            rw [hpw] at hs'
            simp only [Except.ok.injEq] at hs'
            subst hs'
            refine ⟨rfl, rfl, ?_, ?_⟩
            · show getPoints (debit s.balances u _) u = _
              unfold getPoints
              rw [find_debit]
              cases hf : s.balances.find? (fun p => p.1 == u) with
              | none =>
                  have h0 : getPoints s.balances u = 0 := by
                    unfold getPoints; rw [hf]
                  rw [h0] at h4
                  have hc : (s.bet.wagerCost : Int) = 0 := by omega
                  simp [hc]
              | some p => simp
            · intro ham u'
              show (s.wagers ++ [(⟨u, opt, none⟩ : Wager)]).countP
                  (fun w => w.userId == u') ≤ 1
              rw [List.countP_append]
              by_cases hu : u = u'
              · subst hu
                have hfalse : s.wagers.any (fun w => w.userId == u) = false := by
                  simpa [hasWager] using h3
                have hz : s.wagers.countP (fun w => w.userId == u) = 0 := by
                  rw [List.countP_eq_zero]
                  intro w hw
                  exact List.any_eq_false.mp hfalse w hw
                simp [hz, List.countP_cons]
              · have hone : ([(⟨u, opt, none⟩ : Wager)].countP
                    (fun w => w.userId == u')) = 0 := by
                  simp [List.countP_cons, hu]
                rw [hone]
                simpa using ham u'
    · have hpw : placeWager s u opt = Except.error ApiError.InvalidOption := by
        simp [placeWager, h1, h2]
      refine ⟨?_, ?_, ?_, ?_, ?_⟩ <;> simp only [hpw] <;> simp [h1, h2]
  · have hpw : placeWager s u opt = Except.error ApiError.BetNotOpen := by
      simp [placeWager, h1]
    refine ⟨?_, ?_, ?_, ?_, ?_⟩ <;> simp only [hpw] <;> simp [h1]

/-- Witness for C3: in the concrete open state, U1 placing 100 points on
    option A yields exactly the appended wager and the debited balance,
    and the one-wager invariant holds afterwards. -/
theorem c3_placeWager_admission_witness :
    placedState.wagers = placeState.wagers ++ [⟨"U1", "A", none⟩] ∧
    getPoints placedState.balances "U1" =
      getPoints placeState.balances "U1" - (placeState.bet.wagerCost : Int) ∧
    AtMostOneWager placedState.wagers := by
  obtain ⟨hw, hb, hp, him⟩ :=
    (c3_placeWager_admission placeState "U1" "A").2.2.2.2 placedState (by decide)
  refine ⟨hw, hp, him ?_⟩
  intro u'
  show List.countP _ [] ≤ 1
  simp

/-- The settlement only reads the participant and the selected option of
    each wager, so rewriting pointsWon leaves it unchanged. -/
theorem settle_map_pointsWon (cost : Nat) (l : List Wager)
    (f : Wager → Option Nat) (w : String) :
    settle cost (l.map (fun wg =>
        (⟨wg.userId, wg.selectedOption, f wg⟩ : Wager))) w =
      settle cost l w := by
  simp only [settle, List.filter_map, List.length_map, List.map_map,
    Function.comp]
  rfl

/-- Crediting then subtracting the same deltas restores every balance. -/
theorem removeDeltas_applyDeltas (bal : List (String × Int))
    (d : List (String × Nat)) :
    removeDeltas (applyDeltas bal d) d = bal := by
  unfold removeDeltas applyDeltas
  rw [List.map_map]
  have hcomp : ((fun p : String × Int =>
        (p.1, p.2 - (deltaFor d p.1 : Int))) ∘
      fun p : String × Int => (p.1, p.2 + (deltaFor d p.1 : Int))) = id := by
    funext p
    simp
  rw [hcomp, List.map_id]

/-- Clearing pointsWon on wagers that never had it set is the identity. -/
theorem map_clear_pointsWon (l : List Wager)
    (h : ∀ w ∈ l, w.pointsWon = none) :
    l.map (fun wg => (⟨wg.userId, wg.selectedOption, none⟩ : Wager)) = l := by
  induction l with
  | nil => rfl
  | cons hd tl ih =>
      have hh : hd.pointsWon = none := h hd (List.mem_cons_self _ _)
      simp only [List.map_cons]
      rw [ih (fun w hw => h w (List.mem_cons_of_mem _ hw))]
      cases hd
      simp_all

/-- Successful resolution of a locked bet yields exactly the settled
    state: credited balances, pointsWon written, resolved status with
    resolvedAt and canUndoUntil set. -/
theorem resolve_ok_shape {s s₁ : EngineState} {w : String} {now : Nat}
    (hl : s.bet.status = BetStatus.Locked)
    (h : resolveBet s w now = Except.ok s₁) :
    w ∈ s.bet.options ∧
    s₁ = { bet := { s.bet with
                    status := BetStatus.Resolved,
                    winningOption := some w, resolvedAt := some now,
                    canUndoUntil := some (now + gracePeriod) },
           wagers := s.wagers.map (fun wg =>
             (⟨wg.userId, wg.selectedOption,
               some (deltaFor (settle s.bet.wagerCost s.wagers w)
                 wg.userId)⟩ : Wager)),
           balances := applyDeltas s.balances
             (settle s.bet.wagerCost s.wagers w) } := by
  unfold resolveBet at h
  rw [hl] at h
  simp only [reduceCtorEq, if_false, ne_eq, not_true_eq_false,
    not_false_eq_true, if_true] at h
  by_cases hm : w ∈ s.bet.options
  · simp only [hm, not_true_eq_false, if_false] at h
    simp only [Except.ok.injEq] at h
    exact ⟨hm, h.symm⟩
  · simp [hm] at h

/-- Undoing a resolution that started from a clean locked state restores
    that state exactly. -/
theorem undo_restores_clean {s s₁ : EngineState} {w : String}
    {now now' : Nat} (hcl : CleanLocked s)
    (h : resolveBet s w now = Except.ok s₁)
    (hn : now' ≤ now + gracePeriod) :
    undoResolve s₁ now' = Except.ok s := by
  obtain ⟨hl, hwo, hra, hcu, hpw⟩ := hcl
  obtain ⟨hm, rfl⟩ := resolve_ok_shape hl h
  obtain ⟨⟨sopts, sstat, scost, swin, sres, sundo⟩, swagers, sbal⟩ := s
  simp only at hl hwo hra hcu hpw
  subst hl
  subst hwo
  subst hra
  subst hcu
  unfold undoResolve
  simp only [ne_eq, reduceCtorEq, not_true_eq_false, if_false,
    not_false_eq_true]
  rw [if_pos hn]
  simp only [Except.ok.injEq, EngineState.mk.injEq]
  refine ⟨by trivial, ?_, ?_⟩
  · rw [List.map_map]
    exact map_clear_pointsWon swagers hpw
  · rw [settle_map_pointsWon]
    exact removeDeltas_applyDeltas sbal _

/-- An undo requested after the grace window of a resolution has passed
    is rejected. -/
theorem undo_expired {s s₁ : EngineState} {w : String} {now now' : Nat}
    (hl : s.bet.status = BetStatus.Locked)
    (h : resolveBet s w now = Except.ok s₁)
    (hn : now + gracePeriod < now') :
    undoResolve s₁ now' = Except.error ApiError.UndoWindowExpired := by
  obtain ⟨hm, rfl⟩ := resolve_ok_shape hl h
  unfold undoResolve
  simp only [ne_eq, reduceCtorEq, not_true_eq_false, if_false,
    not_false_eq_true]
  have hc : ¬ now' ≤ now + gracePeriod := by omega
  rw [if_neg hc]

/-- C5: resolveBet is idempotent for a repeated identical call — after a
    successful resolution, resolving again with the same winning option
    returns the same state untouched (balances change exactly once) —
    while resolving an already-resolved bet with a different winning
    option fails with AlreadyResolved. -/
theorem c5_resolve_idempotent :
    (∀ (s : EngineState) (w : String) (now : Nat) (s₁ : EngineState)
        (now' : Nat), resolveBet s w now = Except.ok s₁ →
        resolveBet s₁ w now' = Except.ok s₁) ∧
    (∀ (s : EngineState) (w : String) (now : Nat),
        s.bet.status = BetStatus.Resolved →
        s.bet.winningOption ≠ some w →
        resolveBet s w now = Except.error ApiError.AlreadyResolved) := by
  constructor
  · intro s w now s₁ now' h
    by_cases hr : s.bet.status = BetStatus.Resolved
    · by_cases hw : s.bet.winningOption = some w
      · unfold resolveBet at h
        rw [if_pos hr, if_pos hw] at h
        cases h
        unfold resolveBet
        rw [if_pos hr, if_pos hw]
      · unfold resolveBet at h
        rw [if_pos hr, if_neg hw] at h
        simp at h
    · by_cases hl : s.bet.status = BetStatus.Locked
      · obtain ⟨hm, rfl⟩ := resolve_ok_shape hl h
        simp [resolveBet]
      · unfold resolveBet at h
        rw [if_neg hr, if_pos hl] at h
        simp at h
  · intro s w now h1 h2
    unfold resolveBet
    rw [if_pos h1, if_neg h2]

/-- Witness for C5 at the concrete scenario: the repeated identical
    resolve is a no-op and a different winning option is rejected. -/
theorem c5_resolve_idempotent_witness :
    resolveBet scenarioResolved "A" 7 = Except.ok scenarioResolved ∧
    resolveBet scenarioResolved "B" 7 =
      Except.error ApiError.AlreadyResolved :=
  ⟨c5_resolve_idempotent.1 scenarioState "A" 0 scenarioResolved 7 (by decide),
   c5_resolve_idempotent.2 scenarioResolved "B" 7 (by decide) (by decide)⟩

/-- C6: undoResolve succeeds only while now is at most canUndoUntil
    (later it fails with UndoWindowExpired); undoing a resolution that
    started from a clean locked state reverses exactly the applied
    deltas and clears winningOption, resolvedAt and canUndoUntil,
    restoring that locked state; and resolve, undo, resolve again ends
    with the same balances as the single resolve. -/
theorem c6_undo_reversibility :
    (∀ (s : EngineState) (t now : Nat) (w : String),
        s.bet.status = BetStatus.Resolved →
        s.bet.canUndoUntil = some t →
        s.bet.winningOption = some w → t < now →
        undoResolve s now = Except.error ApiError.UndoWindowExpired) ∧
    (∀ (s : EngineState) (w : String) (now now' : Nat) (s₁ : EngineState),
        CleanLocked s → resolveBet s w now = Except.ok s₁ →
        now' ≤ now + gracePeriod →
        undoResolve s₁ now' = Except.ok s) ∧
    (∀ (s s₁ s₂ s₃ : EngineState) (w : String) (now now' now₂ : Nat),
        CleanLocked s → resolveBet s w now = Except.ok s₁ →
        undoResolve s₁ now' = Except.ok s₂ →
        resolveBet s₂ w now₂ = Except.ok s₃ →
        s₃.balances = s₁.balances) := by
  refine ⟨?_, ?_, ?_⟩
  · intro s t now w h1 h2 h3 hlt
    unfold undoResolve
    simp only [h1, h2, h3, ne_eq, not_true_eq_false, if_false,
      Bool.false_eq_true]
    have hc : ¬ now ≤ t := by omega
    rw [if_neg hc]
  · intro s w now now' s₁ hcl h hn
    exact undo_restores_clean hcl h hn
  · intro s s₁ s₂ s₃ w now now' now₂ hcl h1 h2 h3
    have hl : s.bet.status = BetStatus.Locked := hcl.1
    by_cases hn : now' ≤ now + gracePeriod
    · have hres := undo_restores_clean hcl h1 hn
      rw [hres] at h2
      cases h2
      obtain ⟨hm1, rfl⟩ := resolve_ok_shape hl h1
      obtain ⟨hm3, rfl⟩ := resolve_ok_shape hl h3
      rfl
    · have hexp := @undo_expired s s₁ w now now' hl h1 (by omega)
      rw [hexp] at h2
      simp at h2

/-- Every scored confidence is at most the best confidence. -/
theorem le_bestConfidence (scored : List (String × ℚ)) :
    ∀ p ∈ scored, p.2 ≤ bestConfidence scored := by
  induction scored with
  | nil => intro p hp; simp at hp
  | cons hd tl ih =>
      intro p hp
      rcases List.mem_cons.mp hp with rfl | hmem
      · exact le_max_left _ _
      · exact le_trans (ih p hmem) (le_max_right _ _)

/-- When the best confidence is at most the threshold, no option scores
    above it. -/
theorem filter_above_empty (scored : List (String × ℚ)) (upper : ℚ)
    (h : bestConfidence scored ≤ upper) :
    scored.filter (fun p => decide (upper < p.2)) = [] := by
  rw [List.filter_eq_nil_iff]
  intro p hp
  have := le_bestConfidence scored p hp
  simp only [decide_eq_true_eq]
  exact not_lt.mpr (le_trans this h)

/-- The resolve evaluation only ever acts or ignores. -/
theorem resolveEval_action (lower upper : ℚ) (text : String)
    (rps options : List String) :
    (resolveEval lower upper text rps options).action =
        AutoAction.resolve_bet ∨
    (resolveEval lower upper text rps options).action =
        AutoAction.ignored := by
  unfold resolveEval
  by_cases hp : patternHit text rps = true
  · rw [if_pos hp]
    cases hfl : (scoredOptions text options).filter
        (fun p => decide (upper < p.2)) with
    | nil =>
        simp only [hfl]
        by_cases hb : lower ≤ bestConfidence (scoredOptions text options)
        · rw [if_pos hb]; right; rfl
        · rw [if_neg hb]; right; rfl
    | cons hd tl =>
        cases tl with
        | nil => simp [hfl]
        | cons hd2 tl2 =>
            simp only [hfl]
            by_cases hb : lower ≤ bestConfidence (scoredOptions text options)
            · rw [if_pos hb]; right; rfl
            · rw [if_neg hb]; right; rfl
  · rw [if_neg hp]; right; rfl

/-- The open evaluation only ever opens or ignores. -/
theorem openEval_action (threshold : ℚ) (text : String)
    (ops : List String) (auto : Bool) :
    (openEval threshold text ops auto).action = AutoAction.open_bet ∨
    (openEval threshold text ops auto).action = AutoAction.ignored := by
  unfold openEval
  by_cases hc : (auto && decide (threshold <
      bestConfidence (scoredOptions text ops))) = true
  · rw [if_pos hc]; left; rfl
  · rw [if_neg hc]; right; rfl

/-- A resolve decision comes from the unique option scoring above the
    threshold. -/
theorem resolveEval_resolve_shape (lower upper : ℚ) (text : String)
    (rps options : List String)
    (h : (resolveEval lower upper text rps options).action =
      AutoAction.resolve_bet) :
    ∃ o : String,
      (resolveEval lower upper text rps options).extracted = some o ∧
      o ∈ options ∧
      upper < (resolveEval lower upper text rps options).confidence ∧
      (scoredOptions text options).filter (fun p => decide (upper < p.2)) =
        [(o, (resolveEval lower upper text rps options).confidence)] := by
  unfold resolveEval at h ⊢
  by_cases hp : patternHit text rps = true
  · rw [if_pos hp] at h ⊢
    have hgen : ∀ fl, (scoredOptions text options).filter
        (fun p => decide (upper < p.2)) = fl →
        (match fl with
          | [cand] => (⟨AutoAction.resolve_bet, cand.2, some cand.1,
              false⟩ : Decision)
          | _ =>
              if lower ≤ bestConfidence (scoredOptions text options) then
                ⟨AutoAction.ignored,
                  bestConfidence (scoredOptions text options), none, true⟩
              else
                ⟨AutoAction.ignored,
                  bestConfidence (scoredOptions text options), none,
                  false⟩).action = AutoAction.resolve_bet →
        ∃ o : String,
          (match fl with
            | [cand] => (⟨AutoAction.resolve_bet, cand.2, some cand.1,
                false⟩ : Decision)
            | _ =>
                if lower ≤ bestConfidence (scoredOptions text options) then
                  ⟨AutoAction.ignored,
                    bestConfidence (scoredOptions text options), none, true⟩
                else
                  ⟨AutoAction.ignored,
                    bestConfidence (scoredOptions text options), none,
                    false⟩).extracted = some o ∧
          o ∈ options ∧
          upper < (match fl with
            | [cand] => (⟨AutoAction.resolve_bet, cand.2, some cand.1,
                false⟩ : Decision)
            | _ =>
                if lower ≤ bestConfidence (scoredOptions text options) then
                  ⟨AutoAction.ignored,
                    bestConfidence (scoredOptions text options), none, true⟩
                else
                  ⟨AutoAction.ignored,
                    bestConfidence (scoredOptions text options), none,
                    false⟩).confidence ∧
          fl = [(o, (match fl with
            | [cand] => (⟨AutoAction.resolve_bet, cand.2, some cand.1,
                false⟩ : Decision)
            | _ =>
                if lower ≤ bestConfidence (scoredOptions text options) then
                  ⟨AutoAction.ignored,
                    bestConfidence (scoredOptions text options), none, true⟩
                else
                  ⟨AutoAction.ignored,
                    bestConfidence (scoredOptions text options), none,
                    false⟩).confidence)] := by
      intro fl hfl hact
      cases fl with
      | nil =>
          by_cases hb : lower ≤ bestConfidence (scoredOptions text options) <;>
            simp [hb] at hact
      | cons hd tl =>
          cases tl with
          | nil =>
              refine ⟨hd.1, rfl, ?_, ?_, ?_⟩
              · have hmem : hd ∈ (scoredOptions text options).filter
                    (fun p => decide (upper < p.2)) := by
                  rw [hfl]; exact List.mem_cons_self _ _
                have hin := List.mem_filter.mp hmem |>.1
                unfold scoredOptions at hin
                rcases List.mem_map.mp hin with ⟨o, hom, heq⟩
                have ho : hd.1 = o := by rw [← heq]
                rw [ho]
                exact hom
              · have hmem : hd ∈ (scoredOptions text options).filter
                    (fun p => decide (upper < p.2)) := by
                  rw [hfl]; exact List.mem_cons_self _ _
                have hpred := List.mem_filter.mp hmem |>.2
                simpa using hpred
              · simp
          | cons hd2 tl2 =>
              by_cases hb : lower ≤
                  bestConfidence (scoredOptions text options) <;>
                simp [hb] at hact
    obtain ⟨o, h1, h2, h3, h4⟩ := hgen _ rfl h
    exact ⟨o, h1, h2, h3, h4⟩
  · rw [if_neg hp] at h
    simp at h

/-- Witness for C6 at the concrete scenario: an undo at time 5 restores
    the pre-resolution state and an undo at time 20 (past the 10 second
    window) is rejected. -/
theorem c6_undo_reversibility_witness :
    undoResolve scenarioResolved 5 = Except.ok scenarioState ∧
    undoResolve scenarioResolved 20 =
      Except.error ApiError.UndoWindowExpired :=
  ⟨c6_undo_reversibility.2.1 scenarioState "A" 0 5 scenarioResolved
      (by refine ⟨rfl, rfl, rfl, rfl, ?_⟩; decide) (by decide) (by decide),
   c6_undo_reversibility.1 scenarioResolved gracePeriod 20 "A"
      rfl rfl rfl (by decide)⟩

/-- The concrete transcript scenario resolves: the classifier extracts
    Barbie with confidence 1 from the winner announcement. -/
theorem barbieAction :
    classify resolveLower resolveUpper openThreshold
        "and the winner is Barbie" barbieBet [] ["winner is"] true =
      ⟨AutoAction.resolve_bet, 1, some "Barbie", false⟩ := by
  have hcb : optionConfidence "and the winner is Barbie" "Barbie" = 1 := by
    rw [optionConfidence, if_pos]
    decide
  have hco : optionConfidence "and the winner is Barbie" "Oppenheimer" = 0 := by
    rw [optionConfidence, if_neg]
    · have ht : tokensOf "Oppenheimer" = ["Oppenheimer"] := by decide
      have hf : (["Oppenheimer"].filter
          (fun t => textContains "and the winner is Barbie" t)) = [] := by
        decide
      simp only [ht, hf]
      norm_num
    · decide
  have hscore : scoredOptions "and the winner is Barbie" barbieBet.options =
      [("Barbie", 1), ("Oppenheimer", 0)] := by
    show [("Barbie", optionConfidence "and the winner is Barbie" "Barbie"),
      ("Oppenheimer",
        optionConfidence "and the winner is Barbie" "Oppenheimer")] = _
    rw [hcb, hco]
  have hpat : patternHit "and the winner is Barbie" ["winner is"] = true := by
    decide
  have hfil : ([(("Barbie" : String), (1 : ℚ)), ("Oppenheimer", 0)].filter
      (fun p => decide (resolveUpper < p.2))) = [("Barbie", 1)] := by
    have h1 : decide (resolveUpper < (1 : ℚ)) = true :=
      decide_eq_true (by norm_num [resolveUpper])
    have h2 : decide (resolveUpper < (0 : ℚ)) = false :=
      decide_eq_false (by norm_num [resolveUpper])
    simp [List.filter, h1, h2]
  show resolveEval resolveLower resolveUpper "and the winner is Barbie"
      ["winner is"] barbieBet.options = _
  unfold resolveEval
  rw [if_pos hpat, hscore, hfil]

/-- C8: the transcript classifier is a total evaluation — every
    transcript text and bet pattern catalog yields a decision whose
    action is open_bet, resolve_bet or ignored, never an error — it
    resolves only when a single option scores above the upper resolve
    threshold (default 0.85), it flags for admin review without acting
    when the best confidence lies between the lower and upper bounds,
    and it ignores below the lower bound (a non-matching entry is the
    ignored outcome with confidence 0). -/
theorem c8_classifier_never_raises :
    (∀ (lower upper openThr : ℚ) (text : String) (b : EngineBet)
        (ops rps : List String) (auto : Bool),
        (classify lower upper openThr text b ops rps auto).action =
            AutoAction.open_bet ∨
        (classify lower upper openThr text b ops rps auto).action =
            AutoAction.resolve_bet ∨
        (classify lower upper openThr text b ops rps auto).action =
            AutoAction.ignored) ∧
    (∀ (lower upper openThr : ℚ) (text : String) (b : EngineBet)
        (ops rps : List String) (auto : Bool),
        (classify lower upper openThr text b ops rps auto).action =
          AutoAction.resolve_bet →
        ∃ o : String,
          (classify lower upper openThr text b ops rps auto).extracted =
            some o ∧
          o ∈ b.options ∧
          upper <
            (classify lower upper openThr text b ops rps auto).confidence ∧
          (scoredOptions text b.options).filter
              (fun p => decide (upper < p.2)) =
            [(o, (classify lower upper openThr text b ops rps
              auto).confidence)]) ∧
    (∀ (lower upper : ℚ) (text : String) (rps options : List String),
        patternHit text rps = true →
        bestConfidence (scoredOptions text options) ≤ upper →
        lower ≤ bestConfidence (scoredOptions text options) →
        resolveEval lower upper text rps options =
          ⟨AutoAction.ignored, bestConfidence (scoredOptions text options),
            none, true⟩) ∧
    (∀ (lower upper : ℚ) (text : String) (rps options : List String),
        lower ≤ upper → patternHit text rps = true →
        bestConfidence (scoredOptions text options) < lower →
        resolveEval lower upper text rps options =
          ⟨AutoAction.ignored, bestConfidence (scoredOptions text options),
            none, false⟩) ∧
    (∀ (lower upper : ℚ) (text : String) (rps options : List String),
        patternHit text rps = false →
        resolveEval lower upper text rps options =
          ⟨AutoAction.ignored, 0, none, false⟩) := by
  refine ⟨?_, ?_, ?_, ?_, ?_⟩
  · intro lower upper openThr text b ops rps auto
    unfold classify
    cases b.status
    · rcases openEval_action openThr text ops auto with h | h
      · exact Or.inl h
      · exact Or.inr (Or.inr h)
    · rcases resolveEval_action lower upper text rps b.options with h | h
      · exact Or.inr (Or.inl h)
      · exact Or.inr (Or.inr h)
    · rcases resolveEval_action lower upper text rps b.options with h | h
      · exact Or.inr (Or.inl h)
      · exact Or.inr (Or.inr h)
    · exact Or.inr (Or.inr rfl)
  · intro lower upper openThr text b ops rps auto h
    unfold classify at h ⊢
    cases hb : b.status <;> rw [hb] at h
    · have h' : (openEval openThr text ops auto).action =
          AutoAction.resolve_bet := h
      rcases openEval_action openThr text ops auto with ho | ho <;>
        rw [h'] at ho <;> simp at ho
    · exact resolveEval_resolve_shape lower upper text rps b.options h
    · exact resolveEval_resolve_shape lower upper text rps b.options h
    · simp at h
  · intro lower upper text rps options hp hle hlo
    unfold resolveEval
    rw [if_pos hp]
    have hfl := filter_above_empty (scoredOptions text options) upper hle
    rw [hfl]
    rw [if_pos hlo]
  · intro lower upper text rps options hlu hp hlt
    unfold resolveEval
    rw [if_pos hp]
    have hfl := filter_above_empty (scoredOptions text options) upper
      (le_trans (le_of_lt hlt) hlu)
    rw [hfl]
    rw [if_neg (not_le.mpr hlt)]
  · intro lower upper text rps options hp
    unfold resolveEval
    rw [if_neg (by simp [hp])]

/-- Witness for C8 at the concrete transcript scenario of the spec:
    the entry "and the winner is Barbie" against the resolve pattern
    "winner is" and options Barbie and Oppenheimer extracts the single
    candidate Barbie with confidence above the 0.85 threshold. -/
theorem c8_classifier_never_raises_witness :
    ∃ o : String,
      (classify resolveLower resolveUpper openThreshold
          "and the winner is Barbie" barbieBet [] ["winner is"]
          true).extracted = some o ∧
      o ∈ barbieBet.options ∧
      resolveUpper <
        (classify resolveLower resolveUpper openThreshold
          "and the winner is Barbie" barbieBet [] ["winner is"]
          true).confidence ∧
      (scoredOptions "and the winner is Barbie" barbieBet.options).filter
          (fun p => decide (resolveUpper < p.2)) =
        [(o, (classify resolveLower resolveUpper openThreshold
          "and the winner is Barbie" barbieBet [] ["winner is"]
          true).confidence)] :=
  c8_classifier_never_raises.2.1 resolveLower resolveUpper openThreshold
    "and the winner is Barbie" barbieBet [] ["winner is"] true
    (by rw [barbieAction])

end SmallBets
